import Mathlib

/-!
Verification of the data-access and persistence layer of the Swachh Bharat
record-keeping application (`src/app.py`).

The program keeps a single JSON document `{ users: [...], entries: [...] }`
in a local file.  Every operation loads the whole document, mutates an
in-memory copy and writes the whole document back.  We embed this shallowly:
the `Document` value is the state, `load`/`save` become plain state passing,
and each Python function becomes a Lean function from the old document (plus
its arguments) to its result and/or the new document.

External primitives are handled as follows:
* `hashlib.sha256(...).hexdigest()` (Python standard library, not part of
  this repository) is abstracted as a parameter `hash_password : String →
  String`; every property claimed about the program holds uniformly in it.
* `base64.b64encode` is implemented concretely (`b64encode`) on byte lists.
* `datetime.now().isoformat()` is nondeterministic input; `create_entry`
  takes the timestamp string as an explicit argument `now`.
* `fpdf.FPDF` is modelled by the observable calls the program makes to it:
  an explicit page addition and a sequence of emitted cells / vertical
  spacers (`PdfItem`), collected into a `PdfDoc`.
* `json.dump` / `json.load` are modelled at the JSON-tree level (`Jval`),
  which is exactly the "formatting aside" reading of the spec.
-/

namespace SwachhApp

/-- A registered operator account, one element of the `users` collection. -/
structure User where
  id : Nat
  username : String
  password : String
  full_name : String
deriving DecidableEq, Repr

/-- One household sanitation survey record, one element of `entries`. -/
structure Entry where
  id : Nat
  user_id : Nat
  household_name : String
  father_name : String
  mobile_no : String
  address : String
  dustbin_number : Nat
  image : Option String
  created_at : String
deriving DecidableEq, Repr

/-- The single root object holding all persisted state. -/
structure Document where
  users : List User
  entries : List Entry
deriving DecidableEq, Repr

/-- The document `init_data` creates when the backing file is absent. -/
def emptyDoc : Document := { users := [], entries := [] }

/-- The standard base64 alphabet, as used by `base64.b64encode`. -/
def b64Alphabet : List Char :=
  "ABCDEFGHIJKLMNOPQRSTUVWXYZabcdefghijklmnopqrstuvwxyz0123456789+/".toList

/-- Character for a 6-bit group. -/
def b64Char (n : Nat) : Char := b64Alphabet.getD n '='

/-- Base64 encoding of a byte list (each element < 256), three bytes at a
time with `=` padding, as `base64.b64encode` produces. -/
def b64encode : List Nat → List Char
  | [] => []
  | [a] => [b64Char (a / 4 % 64), b64Char (a % 4 * 16), '=', '=']
  | [a, b] =>
      [b64Char (a / 4 % 64), b64Char (a % 4 * 16 + b / 16 % 16), b64Char (b % 16 * 4), '=']
  | a :: b :: c :: rest =>
      b64Char (a / 4 % 64) :: b64Char (a % 4 * 16 + b / 16 % 16) ::
      b64Char (b % 16 * 4 + c / 64 % 4) :: b64Char (c % 64) :: b64encode rest

/-- Base64 encoding as a string (`base64.b64encode(bs).decode()`). -/
def b64String (bs : List Nat) : String := String.mk (b64encode bs)

/-- Python truthiness of an `Optional[bytes]` value: `None` and the empty
byte string are falsy, any nonempty byte string is truthy. -/
def pyTruthyBytes : Option (List Nat) → Bool
  | none => false
  | some bs => !bs.isEmpty

/-- Translation of the conditional expression in `create_entry`:
`base64.b64encode(image_bytes).decode() if image_bytes else None`. -/
def encodeImage (image_bytes : Option (List Nat)) : Option String :=
  if pyTruthyBytes image_bytes then image_bytes.map b64String else none

section Auth

variable (hash_password : String → String)

/-- Translation of `register_user`: fail (returning the document unchanged,
nothing saved) when any existing user has the same username, otherwise
append a user with id `len(users)+1` and the hashed password and save.
The returned `Bool` is the Python return value. -/
def register_user (d : Document) (username password full_name : String) :
    Document × Bool :=
  if d.users.any (fun u => u.username == username) then (d, false)
  else
    ({ d with
        users := d.users ++
          [{ id := d.users.length + 1, username := username,
             password := hash_password password, full_name := full_name }] },
      true)

/-- Translation of `login_user`: return the first user whose username and
hashed password both match, else `none`. -/
def login_user (d : Document) (username password : String) : Option User :=
  d.users.find? (fun u => u.username == username && u.password == hash_password password)

end Auth

/-- Translation of `create_entry`: append an entry with id
`len(entries)+1`, the given field values, the base64 image (or `none` when
the bytes are falsy) and the current timestamp, then save. -/
def create_entry (d : Document) (user_id : Nat)
    (household_name father_name mobile_no address : String)
    (dustbin_number : Nat) (image_bytes : Option (List Nat)) (now : String) :
    Document :=
  { d with
    entries := d.entries ++
      [{ id := d.entries.length + 1, user_id := user_id,
         household_name := household_name, father_name := father_name,
         mobile_no := mobile_no, address := address,
         dustbin_number := dustbin_number,
         image := encodeImage image_bytes, created_at := now }] }

/-- Translation of `get_entries`: all entries with the given `user_id`, in
stored order. -/
def get_entries (d : Document) (user_id : Nat) : List Entry :=
  d.entries.filter (fun e => e.user_id == user_id)

/-- Translation of `get_entry`: the first entry with the given id, else
`none`. -/
def get_entry (d : Document) (entry_id : Nat) : Option Entry :=
  d.entries.find? (fun e => e.id == entry_id)

/-- The loop body of `update_entry`: overwrite the five mutable fields of
an entry whose id matches, leave any other entry alone. -/
def updFields (entry_id : Nat)
    (household_name father_name mobile_no address : String)
    (dustbin_number : Nat) (e : Entry) : Entry :=
  if e.id == entry_id then
    { e with
      household_name := household_name, father_name := father_name,
      mobile_no := mobile_no, address := address,
      dustbin_number := dustbin_number }
  else e

/-- Translation of `update_entry`: overwrite the five mutable fields of
every entry whose id matches, leave other entries alone, then save. -/
def update_entry (d : Document) (entry_id : Nat)
    (household_name father_name mobile_no address : String)
    (dustbin_number : Nat) : Document :=
  { d with
    entries := d.entries.map
      (updFields entry_id household_name father_name mobile_no address
        dustbin_number) }

/-- Translation of `delete_entry`: keep exactly the entries whose id
differs, then save. -/
def delete_entry (d : Document) (entry_id : Nat) : Document :=
  { d with entries := d.entries.filter (fun e => e.id != entry_id) }

/-- One observable call `export_to_pdf` makes on the `FPDF` object: a text
cell emitted with a line break (`pdf.cell(..., ln=True)`), or a vertical
spacer (`pdf.ln(h)`). -/
inductive PdfItem where
  | cell (txt : String)
  | spacer (h : Nat)
deriving DecidableEq, Repr

/-- The rendered report: the number of explicitly added pages (automatic
page breaks by the renderer can only add more) and the emitted items in
order. -/
structure PdfDoc where
  pages : Nat
  items : List PdfItem
deriving DecidableEq, Repr

/-- The first line emitted per entry:
`f"{idx}. {household_name} ({father_name}), Mobile: {mobile_no}"`. -/
def entryLine1 (idx : Nat) (e : Entry) : String :=
  toString idx ++ ". " ++ e.household_name ++ " (" ++ e.father_name ++
    "), Mobile: " ++ e.mobile_no

/-- The second line emitted per entry:
`f"Address: {address}, Dustbin No: {dustbin_number}"`. -/
def entryLine2 (e : Entry) : String :=
  "Address: " ++ e.address ++ ", Dustbin No: " ++ toString e.dustbin_number

/-- The loop body of `export_to_pdf`: for each entry, numbered from `idx`
upward, two cells followed by a 5-unit spacer. -/
def entryItems (idx : Nat) : List Entry → List PdfItem
  | [] => []
  | e :: rest =>
      .cell (entryLine1 idx e) :: .cell (entryLine2 e) :: .spacer 5 ::
        entryItems (idx + 1) rest

/-- Translation of `export_to_pdf`: one `add_page`, a centered title cell,
a 10-unit spacer, then the numbered per-entry lines starting at 1. -/
def export_to_pdf (entries : List Entry) : PdfDoc :=
  { pages := 1,
    items := .cell "Entries Report" :: .spacer 10 :: entryItems 1 entries }

/-- JSON values, the shape `json.load` / `json.dump` exchange with the
backing file (numbers restricted to integers, the only kind this program
ever stores). -/
inductive Jval where
  | null
  | num (n : Int)
  | str (s : String)
  | arr (elems : List Jval)
  | obj (fields : List (String × Jval))
deriving Repr

/-- First binding of a key in a JSON object, the dict lookup of the loaded
document. -/
def jLookup (key : String) : List (String × Jval) → Option Jval
  | [] => none
  | (k, v) :: rest => if k == key then some v else jLookup key rest

/-- Serialization of a user, as `json.dump` writes the dict built by
`register_user`. -/
def userToJson (u : User) : Jval :=
  .obj [("id", .num u.id), ("username", .str u.username),
        ("password", .str u.password), ("full_name", .str u.full_name)]

/-- Serialization of an optional image string (`None` becomes JSON null). -/
def imageToJson : Option String → Jval
  | none => .null
  | some s => .str s

/-- Serialization of an entry, as `json.dump` writes the dict built by
`create_entry`. -/
def entryToJson (e : Entry) : Jval :=
  .obj [("id", .num e.id), ("user_id", .num e.user_id),
        ("household_name", .str e.household_name),
        ("father_name", .str e.father_name),
        ("mobile_no", .str e.mobile_no), ("address", .str e.address),
        ("dustbin_number", .num e.dustbin_number),
        ("image", imageToJson e.image), ("created_at", .str e.created_at)]

/-- Serialization of the whole document (`save_data`, formatting aside). -/
def docToJson (d : Document) : Jval :=
  .obj [("users", .arr (d.users.map userToJson)),
        ("entries", .arr (d.entries.map entryToJson))]

/-- Read a JSON value as a nonnegative integer. -/
def asNat : Jval → Option Nat
  | .num (Int.ofNat n) => some n
  | _ => none

/-- Read a JSON value as a string. -/
def asStr : Jval → Option String
  | .str s => some s
  | _ => none

/-- Read a JSON value as an optional string (null allowed). -/
def asOptStr : Jval → Option (Option String)
  | .null => some none
  | .str s => some (some s)
  | _ => none

/-- Read a JSON value as an array. -/
def asArr : Jval → Option (List Jval)
  | .arr xs => some xs
  | _ => none

/-- Typed reading of one stored user: the fields the program accesses on
`data['users'][i]`, with the layout of §6 of the spec. -/
def userOfJson : Jval → Option User
  | .obj fs => do
      let i ← jLookup "id" fs >>= asNat
      let un ← jLookup "username" fs >>= asStr
      let pw ← jLookup "password" fs >>= asStr
      let fn ← jLookup "full_name" fs >>= asStr
      pure { id := i, username := un, password := pw, full_name := fn }
  | _ => none

/-- Typed reading of one stored entry. -/
def entryOfJson : Jval → Option Entry
  | .obj fs => do
      let i ← jLookup "id" fs >>= asNat
      let uid ← jLookup "user_id" fs >>= asNat
      let hn ← jLookup "household_name" fs >>= asStr
      let fa ← jLookup "father_name" fs >>= asStr
      let mob ← jLookup "mobile_no" fs >>= asStr
      let addr ← jLookup "address" fs >>= asStr
      let dn ← jLookup "dustbin_number" fs >>= asNat
      let img ← jLookup "image" fs >>= asOptStr
      let ca ← jLookup "created_at" fs >>= asStr
      pure { id := i, user_id := uid, household_name := hn,
             father_name := fa, mobile_no := mob, address := addr,
             dustbin_number := dn, image := img, created_at := ca }
  | _ => none

/-- Typed reading of a parsed backing file (`load_data` followed by the
field accesses the program performs); a file is well-formed exactly when
this succeeds. -/
def docOfJson : Jval → Option Document
  | .obj fs => do
      let us ← jLookup "users" fs >>= asArr
      let es ← jLookup "entries" fs >>= asArr
      let users ← us.mapM userOfJson
      let entries ← es.mapM entryOfJson
      pure { users := users, entries := entries }
  | _ => none

/-- One entry-repository operation, with all the inputs the corresponding
Python function receives (timestamp included). -/
inductive Op where
  | create (user_id : Nat) (household_name father_name mobile_no address : String)
      (dustbin_number : Nat) (image_bytes : Option (List Nat)) (now : String)
  | update (entry_id : Nat) (household_name father_name mobile_no address : String)
      (dustbin_number : Nat)
  | delete (entry_id : Nat)

/-- Apply one entry-repository operation to the document. -/
def applyOp (d : Document) : Op → Document
  | .create uid hn fa mob addr dn img now =>
      create_entry d uid hn fa mob addr dn img now
  | .update eid hn fa mob addr dn => update_entry d eid hn fa mob addr dn
  | .delete eid => delete_entry d eid

/-- Run a sequence of entry-repository operations. -/
def runOps (d : Document) (ops : List Op) : Document := ops.foldl applyOp d

/-- Whether an operation is a `create`. -/
def Op.isCreate : Op → Bool
  | .create .. => true
  | _ => false

/-- Whether an operation is a `delete`. -/
def Op.isDelete : Op → Bool
  | .delete _ => true
  | _ => false

/-- No `create` occurs anywhere after a `delete` in the sequence. -/
def noCreateAfterDelete : List Op → Bool
  | [] => true
  | op :: rest =>
      if op.isDelete then rest.all (fun o => !o.isCreate)
      else noCreateAfterDelete rest

/-- The arguments of one `create_entry` call. -/
structure CreateCall where
  user_id : Nat
  household_name : String
  father_name : String
  mobile_no : String
  address : String
  dustbin_number : Nat
  image_bytes : Option (List Nat)
  now : String
deriving DecidableEq, Repr

/-- Apply one `create_entry` call. -/
def applyCreate (d : Document) (c : CreateCall) : Document :=
  create_entry d c.user_id c.household_name c.father_name c.mobile_no
    c.address c.dustbin_number c.image_bytes c.now

/-- Run a sequence of `create_entry` calls. -/
def runCreates (d : Document) (calls : List CreateCall) : Document :=
  calls.foldl applyCreate d

/-- Everything determined about a stored entry by the `create_entry` call
that made it — every field except the positional `id`. -/
def entryContent (e : Entry) :
    Nat × String × String × String × String × Nat × Option String × String :=
  (e.user_id, e.household_name, e.father_name, e.mobile_no, e.address,
    e.dustbin_number, e.image, e.created_at)

/-- The entry content a `create_entry` call produces. -/
def callContent (c : CreateCall) :
    Nat × String × String × String × String × Nat × Option String × String :=
  (c.user_id, c.household_name, c.father_name, c.mobile_no, c.address,
    c.dustbin_number, encodeImage c.image_bytes, c.now)

/-! Concrete demonstration values, used by the witness theorems. -/

/-- Demonstration user (with the identity function as the hash). -/
def demoUserAlice : User :=
  { id := 1, username := "alice", password := "pw123", full_name := "Alice A" }

/-- Demonstration entry owned by user 1. -/
def demoEntry : Entry :=
  { id := 1, user_id := 1, household_name := "Shah House",
    father_name := "R Shah", mobile_no := "9999999999",
    address := "12 MG Road", dustbin_number := 3, image := none,
    created_at := "2024-01-01T00:00:00" }

/-- Demonstration document with one user and one entry. -/
def demoDoc : Document := { users := [demoUserAlice], entries := [demoEntry] }

/-! General helper lemmas, shared by the claim theorems below. -/

/-- Characterization of a successful `find?`: the found element splits the
list, satisfies the predicate, and nothing before it does. -/
theorem find?_eq_some_split {α : Type _} (p : α → Bool) (l : List α) (a : α) :
    l.find? p = some a ↔
      ∃ l1 l2, l = l1 ++ a :: l2 ∧ p a = true ∧ ∀ x ∈ l1, p x = false := by
  induction l with
  | nil => simp
  | cons b rest ih =>
    cases hb : p b with
    | true =>
      rw [List.find?_cons_of_pos rest hb]
      constructor
      · intro h
        obtain rfl : b = a := Option.some.inj h
        exact ⟨[], rest, rfl, hb, by simp⟩
      · rintro ⟨l1, l2, heq, hpa, hl1⟩
        cases l1 with
        | nil =>
          simp only [List.nil_append, List.cons.injEq] at heq
          rw [heq.1]
        | cons c cs =>
          simp only [List.cons_append, List.cons.injEq] at heq
          have := hl1 c (List.mem_cons_self c cs)
          rw [← heq.1, hb] at this
          cases this
    | false =>
      rw [List.find?_cons_of_neg rest (by simp [hb]), ih]
      constructor
      · rintro ⟨l1, l2, heq, hpa, hl1⟩
        refine ⟨b :: l1, l2, by rw [heq]; rfl, hpa, ?_⟩
        intro x hx
        rcases List.mem_cons.mp hx with rfl | hx
        · exact hb
        · exact hl1 x hx
      · rintro ⟨l1, l2, heq, hpa, hl1⟩
        cases l1 with
        | nil =>
          simp only [List.nil_append, List.cons.injEq] at heq
          rw [heq.1, hpa] at hb
          cases hb
        | cons c cs =>
          simp only [List.cons_append, List.cons.injEq] at heq
          exact ⟨cs, l2, heq.2, hpa, fun x hx => hl1 x (List.mem_cons_of_mem c hx)⟩

/-- Updating never changes an entry's id. -/
theorem updFields_id (eid : Nat) (hn fa mob addr : String) (dn : Nat)
    (e : Entry) : (updFields eid hn fa mob addr dn e).id = e.id := by
  unfold updFields
  split <;> rfl

/-- Updating an entry whose id differs is the identity. -/
theorem updFields_of_ne (eid : Nat) (hn fa mob addr : String) (dn : Nat)
    (e : Entry) (h : e.id ≠ eid) : updFields eid hn fa mob addr dn e = e := by
  unfold updFields
  simp [h]

/-- Updating an entry whose id matches replaces exactly the mutable
fields. -/
theorem updFields_of_eq (eid : Nat) (hn fa mob addr : String) (dn : Nat)
    (e : Entry) (h : e.id = eid) :
    updFields eid hn fa mob addr dn e =
      { e with household_name := hn, father_name := fa, mobile_no := mob,
               address := addr, dustbin_number := dn } := by
  unfold updFields
  simp [h]

/-! Claim theorems. -/

/-- C1: `authenticate(username, password)` returns a user exactly when some
stored user has that exact username and a stored password equal to the
digest of the supplied password; otherwise it returns the failure value
(`none`, the same for unknown username and wrong password); and the
returned user is the first such match in storage order.  `hash_password`
abstracts the SHA-256 hex digest of the Python standard library. -/
theorem login_user_spec (hash_password : String → String) (d : Document)
    (username password : String) :
    ((∃ u, login_user hash_password d username password = some u) ↔
      ∃ u ∈ d.users, u.username = username ∧
        u.password = hash_password password) ∧
    (login_user hash_password d username password = none ↔
      ¬ ∃ u ∈ d.users, u.username = username ∧
        u.password = hash_password password) ∧
    (∀ u, login_user hash_password d username password = some u →
      u.username = username ∧ u.password = hash_password password ∧
      ∃ l1 l2, d.users = l1 ++ u :: l2 ∧
        ∀ v ∈ l1, ¬ (v.username = username ∧
          v.password = hash_password password)) := by
  have hpred : ∀ v : User,
      (v.username == username && v.password == hash_password password) = true ↔
        (v.username = username ∧ v.password = hash_password password) := by
    intro v
    simp [Bool.and_eq_true, beq_iff_eq]
  refine ⟨?_, ?_, ?_⟩
  · constructor
    · rintro ⟨u, hu⟩
      have hm := List.mem_of_find?_eq_some hu
      have hp := List.find?_some hu
      exact ⟨u, hm, (hpred u).mp hp⟩
    · rintro ⟨u, hm, hu⟩
      cases hfind : login_user hash_password d username password with
      | none =>
          exact ((List.find?_eq_none.mp hfind u hm) ((hpred u).mpr hu)).elim
      | some w => exact ⟨w, rfl⟩
  · constructor
    · intro hnone
      rintro ⟨u, hm, hu⟩
      exact List.find?_eq_none.mp hnone u hm ((hpred u).mpr hu)
    · intro hno
      apply List.find?_eq_none.mpr
      intro v hv hvp
      exact hno ⟨v, hv, (hpred v).mp hvp⟩
  · intro u hu
    obtain ⟨l1, l2, heq, hpa, hl1⟩ :=
      (find?_eq_some_split _ d.users u).mp hu
    obtain ⟨h1, h2⟩ := (hpred u).mp hpa
    refine ⟨h1, h2, l1, l2, heq, ?_⟩
    intro v hv hvp
    have := hl1 v hv
    rw [(hpred v).mpr hvp] at this
    cases this

/-- Witness for C1: on the demonstration document with the identity digest,
logging in as alice with the stored password returns Alice, who is the
first match. -/
theorem login_user_spec_witness :
    demoUserAlice.username = "alice" ∧
    demoUserAlice.password = id "pw123" ∧
    ∃ l1 l2, demoDoc.users = l1 ++ demoUserAlice :: l2 ∧
      ∀ v ∈ l1, ¬ (v.username = "alice" ∧ v.password = id "pw123") :=
  (login_user_spec id demoDoc "alice" "pw123").2.2 demoUserAlice (by decide)

/-- C2: registration fails exactly when some existing user already has that
username (case-sensitive); on failure the document is unchanged; on success
exactly one user is appended, with id `count(users)+1` and the hashed
password, and the entries are untouched. -/
theorem register_user_spec (hash_password : String → String) (d : Document)
    (username password full_name : String) :
    ((register_user hash_password d username password full_name).2 = false ↔
      ∃ u ∈ d.users, u.username = username) ∧
    ((register_user hash_password d username password full_name).2 = false →
      (register_user hash_password d username password full_name).1 = d) ∧
    ((register_user hash_password d username password full_name).2 = true →
      (register_user hash_password d username password full_name).1 =
        { d with
          users := d.users ++
            [{ id := d.users.length + 1, username := username,
               password := hash_password password,
               full_name := full_name }] }) := by
  by_cases h : d.users.any (fun u => u.username == username) = true
  · have hex : ∃ u ∈ d.users, u.username = username := by
      obtain ⟨u, hu, hp⟩ := List.any_eq_true.mp h
      exact ⟨u, hu, by simpa [beq_iff_eq] using hp⟩
    refine ⟨by simp [register_user, h, hex], ?_, ?_⟩
    · intro _
      simp [register_user, h]
    · intro habs
      simp [register_user, h] at habs
  · have hnex : ¬ ∃ u ∈ d.users, u.username = username := by
      rintro ⟨u, hu, hp⟩
      exact h (List.any_eq_true.mpr ⟨u, hu, by simp [beq_iff_eq, hp]⟩)
    refine ⟨by simp [register_user, h, hnex], ?_, ?_⟩
    · intro habs
      simp [register_user, h] at habs
    · intro _
      simp [register_user, h]

/-- Witness for C2: registering alice a second time fails and leaves the
demonstration document unchanged. -/
theorem register_user_spec_witness :
    (register_user id demoDoc "alice" "other" "Alice B").1 = demoDoc :=
  (register_user_spec id demoDoc "alice" "other" "Alice B").2.1 (by decide)

/-- C5: after `delete(id)`, `get(id)` returns `none`; deletion never
touches the users; deleting an id that no entry has is a no-op on the
document. -/
theorem delete_entry_spec (d : Document) (eid : Nat) :
    get_entry (delete_entry d eid) eid = none ∧
    (delete_entry d eid).users = d.users ∧
    ((∀ e ∈ d.entries, e.id ≠ eid) → delete_entry d eid = d) := by
  refine ⟨?_, rfl, ?_⟩
  · apply List.find?_eq_none.mpr
    intro e he
    have hp := (List.mem_filter.mp he).2
    simp only [bne_iff_ne, ne_eq] at hp
    simp [beq_iff_eq, hp]
  · intro h
    unfold delete_entry
    have : d.entries.filter (fun e => e.id != eid) = d.entries :=
      List.filter_eq_self.mpr (fun e he => by simp [h e he])
    rw [this]

/-- Witness for C5: deleting the absent id 5 leaves the demonstration
document unchanged. -/
theorem delete_entry_spec_witness : delete_entry demoDoc 5 = demoDoc :=
  (delete_entry_spec demoDoc 5).2.2 (by decide)

/-- C9: create, update and delete leave the `users` collection exactly
unchanged, and registration (either outcome) leaves the `entries`
collection exactly unchanged. -/
theorem cross_collection_frame (hash_password : String → String)
    (d : Document) (uid : Nat) (hn fa mob addr : String) (dn : Nat)
    (img : Option (List Nat)) (now : String) (eid eid2 : Nat)
    (hn2 fa2 mob2 addr2 : String) (dn2 : Nat)
    (username password full_name : String) :
    (create_entry d uid hn fa mob addr dn img now).users = d.users ∧
    (update_entry d eid hn2 fa2 mob2 addr2 dn2).users = d.users ∧
    (delete_entry d eid2).users = d.users ∧
    (register_user hash_password d username password full_name).1.entries =
      d.entries := by
  refine ⟨rfl, rfl, rfl, ?_⟩
  unfold register_user
  by_cases h : d.users.any (fun u => u.username == username) = true <;> simp [h]

/-- C10: the created entry's `image` field is `none` when the supplied
bytes are absent or empty, and is the base64 encoding of the bytes exactly
when they are nonempty. -/
theorem create_entry_image_spec (d : Document) (uid : Nat)
    (hn fa mob addr : String) (dn : Nat) (image_bytes : Option (List Nat))
    (now : String) :
    (create_entry d uid hn fa mob addr dn image_bytes now).entries =
      d.entries ++
        [{ id := d.entries.length + 1, user_id := uid,
           household_name := hn, father_name := fa, mobile_no := mob,
           address := addr, dustbin_number := dn,
           image := encodeImage image_bytes, created_at := now }] ∧
    encodeImage none = none ∧
    encodeImage (some []) = none ∧
    (∀ bs : List Nat, bs ≠ [] →
      encodeImage (some bs) = some (b64String bs)) := by
  refine ⟨rfl, rfl, rfl, ?_⟩
  intro bs hbs
  simp [encodeImage, pyTruthyBytes, hbs]

/-- Witness for C10: two nonempty bytes are stored base64-encoded. -/
theorem create_entry_image_spec_witness :
    encodeImage (some [104, 105]) = some (b64String [104, 105]) :=
  (create_entry_image_spec demoDoc 1 "h" "f" "m" "a" 0 (some [104, 105])
    "t").2.2.2 [104, 105] (by decide)

/-- Mapping a function that fixes every element of a list is the
identity. -/
theorem map_eq_self_of_eq_id {α : Type _} (f : α → α) (l : List α)
    (h : ∀ x ∈ l, f x = x) : l.map f = l := by
  induction l with
  | nil => rfl
  | cons a as ih =>
      rw [List.map_cons, h a (List.mem_cons_self a as),
        ih (fun x hx => h x (List.mem_cons_of_mem a hx))]

/-- C4: update leaves the users, the number of entries, and every entry
with a different id unchanged; the matching entry keeps its `id`,
`user_id`, `created_at` and `image` and gets exactly the new mutable
fields, which `get` then returns; and when no entry has the id, the
(re-persisted) document is unchanged. -/
theorem update_entry_spec (d : Document) (eid : Nat)
    (hn fa mob addr : String) (dn : Nat) :
    (update_entry d eid hn fa mob addr dn).users = d.users ∧
    (update_entry d eid hn fa mob addr dn).entries.length =
      d.entries.length ∧
    (∀ (i : Nat) (e : Entry), d.entries[i]? = some e → e.id ≠ eid →
      (update_entry d eid hn fa mob addr dn).entries[i]? = some e) ∧
    (∀ (i : Nat) (e : Entry), d.entries[i]? = some e → e.id = eid →
      (update_entry d eid hn fa mob addr dn).entries[i]? =
        some { e with household_name := hn, father_name := fa,
                      mobile_no := mob, address := addr,
                      dustbin_number := dn }) ∧
    ((∀ e ∈ d.entries, e.id ≠ eid) →
      update_entry d eid hn fa mob addr dn = d) ∧
    (∀ e, get_entry d eid = some e →
      get_entry (update_entry d eid hn fa mob addr dn) eid =
        some { e with household_name := hn, father_name := fa,
                      mobile_no := mob, address := addr,
                      dustbin_number := dn }) := by
  refine ⟨rfl, ?_, ?_, ?_, ?_, ?_⟩
  · show (d.entries.map (updFields eid hn fa mob addr dn)).length = _
    rw [List.length_map]
  · intro i e he hne
    show (d.entries.map (updFields eid hn fa mob addr dn))[i]? = some e
    rw [List.getElem?_map, he, Option.map_some']
    rw [updFields_of_ne eid hn fa mob addr dn e hne]
  · intro i e he heq
    show (d.entries.map (updFields eid hn fa mob addr dn))[i]? = some _
    rw [List.getElem?_map, he, Option.map_some']
    rw [updFields_of_eq eid hn fa mob addr dn e heq]
  · intro h
    unfold update_entry
    rw [map_eq_self_of_eq_id _ _
      (fun e he => updFields_of_ne eid hn fa mob addr dn e (h e he))]
  · intro e he
    have he' : List.find? (fun x : Entry => x.id == eid) d.entries =
        some e := he
    have hpe : e.id = eid := by
      have := List.find?_some he'
      simpa [beq_iff_eq] using this
    show (d.entries.map (updFields eid hn fa mob addr dn)).find?
      (fun x => x.id == eid) = some _
    rw [List.find?_map]
    have hcong : ((fun x : Entry => x.id == eid) ∘
        updFields eid hn fa mob addr dn) = fun x : Entry => x.id == eid := by
      funext x
      simp [Function.comp, updFields_id]
    rw [hcong, he', Option.map_some']
    rw [updFields_of_eq eid hn fa mob addr dn e hpe]

/-- Witness for C4: updating the demonstration entry and reading it back
returns the entry with exactly the new mutable fields. -/
theorem update_entry_spec_witness :
    get_entry (update_entry demoDoc 1 "New House" "S Shah" "8888888888"
      "14 MG Road" 5) 1 =
      some { demoEntry with
               household_name := "New House", father_name := "S Shah",
               mobile_no := "8888888888", address := "14 MG Road",
               dustbin_number := 5 } :=
  (update_entry_spec demoDoc 1 "New House" "S Shah" "8888888888"
    "14 MG Road" 5).2.2.2.2.2 demoEntry (by decide)

/-- The entry a `create_entry` call appends to the document. -/
def newEntryOf (d : Document) (c : CreateCall) : Entry :=
  { id := d.entries.length + 1, user_id := c.user_id,
    household_name := c.household_name, father_name := c.father_name,
    mobile_no := c.mobile_no, address := c.address,
    dustbin_number := c.dustbin_number,
    image := encodeImage c.image_bytes, created_at := c.now }

/-- The content of a created entry is the content of its call. -/
theorem entryContent_newEntryOf (d : Document) (c : CreateCall) :
    entryContent (newEntryOf d c) = callContent c := rfl

/-- Fold characterization of `get_entries` over a sequence of creates: the
listing grows, in call order, by exactly the calls made for the queried
user. -/
theorem get_entries_runCreates (d : Document) (calls : List CreateCall)
    (U : Nat) :
    (get_entries (runCreates d calls) U).map entryContent =
      (get_entries d U).map entryContent ++
        (calls.filter (fun c => c.user_id == U)).map callContent := by
  induction calls generalizing d with
  | nil => simp [runCreates]
  | cons c cs ih =>
    have h1 : runCreates d (c :: cs) = runCreates (applyCreate d c) cs := rfl
    rw [h1, ih]
    have hApp : get_entries (applyCreate d c) U =
        get_entries d U ++
          List.filter (fun e => e.user_id == U) [newEntryOf d c] := by
      show (d.entries ++ [newEntryOf d c]).filter
        (fun e => e.user_id == U) = _
      rw [List.filter_append]
      rfl
    rw [hApp]
    cases hc : (c.user_id == U) with
    | true =>
        have hc' : ((newEntryOf d c).user_id == U) = true := hc
        have hfn : List.filter (fun e : Entry => e.user_id == U)
            [newEntryOf d c] = [newEntryOf d c] := by
          simp only [List.filter_cons, List.filter_nil]
          rw [if_pos hc']
        have hfc : List.filter (fun x : CreateCall => x.user_id == U)
            (c :: cs) = c :: List.filter (fun x => x.user_id == U) cs := by
          simp only [List.filter_cons]
          rw [if_pos hc]
        rw [hfn, hfc, List.map_append, List.map_cons, List.map_nil,
          List.map_cons, List.append_assoc, entryContent_newEntryOf]
        rfl
    | false =>
        have hc' : ((newEntryOf d c).user_id == U) = false := hc
        have hfn : List.filter (fun e : Entry => e.user_id == U)
            [newEntryOf d c] = [] := by
          simp only [List.filter_cons, List.filter_nil]
          rw [if_neg (by simp [hc'])]
        have hfc : List.filter (fun x : CreateCall => x.user_id == U)
            (c :: cs) = List.filter (fun x => x.user_id == U) cs := by
          simp only [List.filter_cons]
          rw [if_neg (by simp [hc])]
        rw [hfn, hfc, List.append_nil]

/-- C3: the listing contains only entries of the queried user, preserves
the persisted order, contains every matching entry, is empty when none
matches, and after any sequence of create calls it extends, in call order,
by exactly the calls for that user. -/
theorem get_entries_spec (d : Document) (U : Nat)
    (calls : List CreateCall) :
    (∀ e ∈ get_entries d U, e.user_id = U) ∧
    (get_entries d U).Sublist d.entries ∧
    (∀ e ∈ d.entries, e.user_id = U → e ∈ get_entries d U) ∧
    ((∀ e ∈ d.entries, e.user_id ≠ U) → get_entries d U = []) ∧
    ((get_entries (runCreates d calls) U).map entryContent =
      (get_entries d U).map entryContent ++
        (calls.filter (fun c => c.user_id == U)).map callContent) := by
  refine ⟨?_, List.filter_sublist d.entries, ?_, ?_,
    get_entries_runCreates d calls U⟩
  · intro e he
    have := (List.mem_filter.mp he).2
    simpa [beq_iff_eq] using this
  · intro e he hu
    exact List.mem_filter.mpr ⟨he, by simp [beq_iff_eq, hu]⟩
  · intro h
    unfold get_entries
    exact List.filter_eq_nil_iff.mpr (fun e he => by simp [h e he])

/-- Witness for C3: user 5 has no entries in the demonstration document,
so the listing is empty. -/
theorem get_entries_spec_witness : get_entries demoDoc 5 = [] :=
  (get_entries_spec demoDoc 5 []).2.2.2.1 (by decide)

/-- An operation sequence on which ids collide: create two entries, delete
the first, create again — the new entry gets id `count(entries)+1 = 2`,
which entry 2 already has. -/
def dupOps : List Op :=
  [.create 1 "h1" "f1" "m1" "a1" 0 none "t1",
   .create 1 "h2" "f2" "m2" "a2" 0 none "t2",
   .delete 1,
   .create 1 "h3" "f3" "m3" "a3" 0 none "t3"]

/-- C6 counterexample: after create, create, delete 1, create the document
holds two entries that both have id 2, so ids are not unique and are
reused after deletion — `create` assigns `count(entries)+1`, which an
existing entry can already carry. -/
theorem entry_id_collision :
    ((runOps emptyDoc dupOps).entries.map Entry.id) = [2, 2] ∧
    ¬ ((runOps emptyDoc dupOps).entries.map Entry.id).Nodup := by
  refine ⟨by decide, ?_⟩
  intro h
  rw [show ((runOps emptyDoc dupOps).entries.map Entry.id) = [2, 2]
    from by decide] at h
  simp at h

/-- Update never changes the list of entry ids. -/
theorem update_entry_map_id (d : Document) (eid : Nat)
    (hn fa mob addr : String) (dn : Nat) :
    (update_entry d eid hn fa mob addr dn).entries.map Entry.id =
      d.entries.map Entry.id := by
  show (d.entries.map (updFields eid hn fa mob addr dn)).map Entry.id = _
  rw [List.map_map,
    show (Entry.id ∘ updFields eid hn fa mob addr dn) = Entry.id
      from funext (updFields_id eid hn fa mob addr dn)]

/-- Once no further create happens, updates and deletes preserve
distinctness of the entry ids. -/
theorem nodup_ids_runOps_of_no_create (d : Document) (ops : List Op)
    (hops : ops.all (fun o => !o.isCreate) = true)
    (hd : (d.entries.map Entry.id).Nodup) :
    ((runOps d ops).entries.map Entry.id).Nodup := by
  induction ops generalizing d with
  | nil => exact hd
  | cons op rest ih =>
    have hs : runOps d (op :: rest) = runOps (applyOp d op) rest := rfl
    rw [hs]
    have hall := List.all_eq_true.mp hops
    have hrest : rest.all (fun o => !o.isCreate) = true :=
      List.all_eq_true.mpr (fun x hx => hall x (List.mem_cons_of_mem op hx))
    have hc : (!op.isCreate) = true := hall op (List.mem_cons_self op rest)
    refine ih _ hrest ?_
    cases op with
    | create uid hn fa mob addr dn img now => simp [Op.isCreate] at hc
    | update eid hn fa mob addr dn =>
        rw [show applyOp d (.update eid hn fa mob addr dn) =
          update_entry d eid hn fa mob addr dn from rfl]
        rw [update_entry_map_id]
        exact hd
    | delete eid =>
        have hsub : ((delete_entry d eid).entries.map Entry.id).Sublist
            (d.entries.map Entry.id) :=
          (List.filter_sublist d.entries).map Entry.id
        exact hsub.nodup hd

/-- Creating preserves the strong invariant: distinct ids all bounded by
the number of entries. -/
theorem strongInv_create (d : Document) (uid : Nat)
    (hn fa mob addr : String) (dn : Nat) (img : Option (List Nat))
    (now : String) (hnd : (d.entries.map Entry.id).Nodup)
    (hbd : ∀ e ∈ d.entries, e.id ≤ d.entries.length) :
    ((create_entry d uid hn fa mob addr dn img now).entries.map
        Entry.id).Nodup ∧
      ∀ e ∈ (create_entry d uid hn fa mob addr dn img now).entries,
        e.id ≤ (create_entry d uid hn fa mob addr dn img now).entries.length := by
  constructor
  · show ((d.entries ++ [_]).map Entry.id).Nodup
    rw [List.map_append, List.nodup_append]
    refine ⟨hnd, List.nodup_singleton _, ?_⟩
    intro a ha hb
    obtain ⟨e, he, rfl⟩ := List.mem_map.mp ha
    have h1 : e.id ≤ d.entries.length := hbd e he
    have h2 : e.id = d.entries.length + 1 := by
      simpa using hb
    omega
  · intro e he
    show e.id ≤ (d.entries ++ [_]).length
    rw [List.length_append]
    rcases List.mem_append.mp he with hmem | hmem
    · have := hbd e hmem
      omega
    · rcases List.mem_singleton.mp hmem with rfl
      simp

/-- Running a sequence with no create after a delete from a document
satisfying the strong invariant keeps the ids distinct. -/
theorem nodup_ids_runOps_of_noCreateAfterDelete (d : Document)
    (ops : List Op) (h : noCreateAfterDelete ops = true)
    (hnd : (d.entries.map Entry.id).Nodup)
    (hbd : ∀ e ∈ d.entries, e.id ≤ d.entries.length) :
    ((runOps d ops).entries.map Entry.id).Nodup := by
  induction ops generalizing d with
  | nil => exact hnd
  | cons op rest ih =>
    have hs : runOps d (op :: rest) = runOps (applyOp d op) rest := rfl
    rw [hs]
    cases op with
    | create uid hn fa mob addr dn img now =>
        have hrest : noCreateAfterDelete rest = true := by
          simpa [noCreateAfterDelete, Op.isDelete] using h
        obtain ⟨h1', h2'⟩ :=
          strongInv_create d uid hn fa mob addr dn img now hnd hbd
        exact ih _ hrest h1' h2'
    | update eid hn fa mob addr dn =>
        have hrest : noCreateAfterDelete rest = true := by
          simpa [noCreateAfterDelete, Op.isDelete] using h
        refine ih _ hrest ?_ ?_
        · rw [show applyOp d (.update eid hn fa mob addr dn) =
            update_entry d eid hn fa mob addr dn from rfl]
          rw [update_entry_map_id]
          exact hnd
        · intro e he
          obtain ⟨e0, he0, rfl⟩ := List.mem_map.mp he
          show (updFields eid hn fa mob addr dn e0).id ≤
            (d.entries.map (updFields eid hn fa mob addr dn)).length
          rw [updFields_id, List.length_map]
          exact hbd e0 he0
    | delete eid =>
        have hrest : rest.all (fun o => !o.isCreate) = true := by
          simpa [noCreateAfterDelete, Op.isDelete] using h
        apply nodup_ids_runOps_of_no_create _ _ hrest
        have hsub : ((delete_entry d eid).entries.map Entry.id).Sublist
            (d.entries.map Entry.id) :=
          (List.filter_sublist d.entries).map Entry.id
        exact hsub.nodup hnd

/-- C6 (amended): entry ids are unique in every document reachable from
the empty document by create/update/delete sequences in which no create
follows a delete; without that restriction uniqueness fails, because
`create` assigns `count(entries)+1` and ids ARE reused after a
deletion. -/
theorem entry_ids_nodup (ops : List Op)
    (h : noCreateAfterDelete ops = true) :
    ((runOps emptyDoc ops).entries.map Entry.id).Nodup :=
  nodup_ids_runOps_of_noCreateAfterDelete emptyDoc ops h (by simp [emptyDoc])
    (by simp [emptyDoc])

/-- A delete-free-tail operation sequence for the amended-claim witness. -/
def demoOps : List Op :=
  [.create 1 "h1" "f1" "m1" "a1" 0 none "t1",
   .create 2 "h2" "f2" "m2" "a2" 1 none "t2",
   .delete 1]

/-- Witness for the amended C6: the demonstration sequence has no create
after its delete, and the resulting ids are distinct. -/
theorem entry_ids_nodup_witness :
    noCreateAfterDelete demoOps = true ∧
    ((runOps emptyDoc demoOps).entries.map Entry.id).Nodup :=
  ⟨by decide, entry_ids_nodup demoOps (by decide)⟩

/-- Reading back a serialized user recovers it exactly. -/
theorem userOfJson_userToJson (u : User) :
    userOfJson (userToJson u) = some u := rfl

/-- Reading back a serialized entry recovers it exactly. -/
theorem entryOfJson_entryToJson (e : Entry) :
    entryOfJson (entryToJson e) = some e := by
  rcases e with ⟨i, uid, hn, fa, mob, addr, dn, img, ca⟩
  cases img <;> rfl

/-- Decoding a list of encodings recovers the original list. -/
theorem mapM_map_eq_some {α β : Type} (enc : α → β) (dec : β → Option α)
    (h : ∀ x, dec (enc x) = some x) (l : List α) :
    (l.map enc).mapM dec = some l := by
  induction l with
  | nil => rfl
  | cons a as ih =>
      rw [List.map_cons, List.mapM_cons, h a, ih]
      rfl

/-- Serializing a document and parsing the result yields the document
back. -/
theorem docOfJson_docToJson (d : Document) :
    docOfJson (docToJson d) = some d := by
  have hu := mapM_map_eq_some userToJson userOfJson userOfJson_userToJson
    d.users
  have he := mapM_map_eq_some entryToJson entryOfJson
    entryOfJson_entryToJson d.entries
  have hu' : List.mapM.loop userOfJson (d.users.map userToJson) [] =
      some d.users := hu
  have he' : List.mapM.loop entryOfJson (d.entries.map entryToJson) [] =
      some d.entries := he
  simp [docOfJson, docToJson, jLookup, asArr, hu', he']

/-- C7: for every well-formed backing file (a JSON tree the program can
read as a document), saving the loaded document produces a file that
parses to the same document — `save(load())` is a no-op on content,
formatting aside. -/
theorem save_load_roundtrip (j : Jval) (d : Document)
    (_hload : docOfJson j = some d) :
    docOfJson (docToJson d) = some d :=
  docOfJson_docToJson d

/-- Witness for C7: the serialized demonstration document is well-formed
and round-trips to itself. -/
theorem save_load_roundtrip_witness :
    docOfJson (docToJson demoDoc) = some demoDoc :=
  save_load_roundtrip (docToJson demoDoc) demoDoc (by decide)

/-- The per-entry block emits exactly three items per entry. -/
theorem entryItems_length (n : Nat) (l : List Entry) :
    (entryItems n l).length = 3 * l.length := by
  induction l generalizing n with
  | nil => rfl
  | cons e rest ih =>
      show (entryItems n (e :: rest)).length = _
      simp [entryItems, ih (n + 1)]
      omega

/-- Item-level characterization of the per-entry block: the `i`-th entry
contributes its two text lines and a spacer at positions `3i`, `3i+1`,
`3i+2`, numbered from `n`. -/
theorem entryItems_getElem (l : List Entry) (n i : Nat) (e : Entry)
    (he : l[i]? = some e) :
    (entryItems n l)[3 * i]? = some (.cell (entryLine1 (n + i) e)) ∧
    (entryItems n l)[3 * i + 1]? = some (.cell (entryLine2 e)) ∧
    (entryItems n l)[3 * i + 2]? = some (.spacer 5) := by
  induction l generalizing n i with
  | nil => simp at he
  | cons a as ih =>
    cases i with
    | zero =>
        have ha : a = e := by simpa using he
        subst ha
        refine ⟨?_, ?_, ?_⟩ <;> simp [entryItems]
    | succ j =>
        have he' : as[j]? = some e := by simpa using he
        obtain ⟨g1, g2, g3⟩ := ih (n + 1) j he'
        have hstep : entryItems n (a :: as) =
            .cell (entryLine1 n a) :: .cell (entryLine2 a) :: .spacer 5 ::
              entryItems (n + 1) as := rfl
        refine ⟨?_, ?_, ?_⟩
        · rw [hstep, show 3 * (j + 1) = (3 * j + 1 + 1) + 1 from by omega,
            List.getElem?_cons_succ, List.getElem?_cons_succ,
            List.getElem?_cons_succ]
          rw [show n + 1 + j = n + (j + 1) from by omega] at g1
          exact g1
        · rw [hstep, show 3 * (j + 1) + 1 = (3 * j + 2 + 1) + 1 from by
            omega, List.getElem?_cons_succ, List.getElem?_cons_succ,
            List.getElem?_cons_succ]
          exact g2
        · rw [hstep, show 3 * (j + 1) + 2 = (3 * j + 3 + 1) + 1 from by
            omega, List.getElem?_cons_succ, List.getElem?_cons_succ,
            List.getElem?_cons_succ]
          exact g3

/-- C8: the export always has at least one page and a nonempty item
stream opening with the title; it emits exactly `2 + 3·n` items; and per
entry, in the order received, a numbered line with household name,
father's name and mobile number, a line with address and dustbin count,
and a blank spacer, numbered from 1. -/
theorem export_to_pdf_spec (entries : List Entry) :
    1 ≤ (export_to_pdf entries).pages ∧
    (export_to_pdf entries).items ≠ [] ∧
    (export_to_pdf entries).items[0]? = some (.cell "Entries Report") ∧
    (export_to_pdf entries).items.length = 2 + 3 * entries.length ∧
    (∀ (i : Nat) (e : Entry), entries[i]? = some e →
      (export_to_pdf entries).items[3 * i + 2]? =
          some (.cell (entryLine1 (i + 1) e)) ∧
        (export_to_pdf entries).items[3 * i + 3]? =
          some (.cell (entryLine2 e)) ∧
        (export_to_pdf entries).items[3 * i + 4]? = some (.spacer 5)) := by
  refine ⟨le_refl 1, by simp [export_to_pdf], rfl, ?_, ?_⟩
  · show (PdfItem.cell "Entries Report" :: PdfItem.spacer 10 ::
      entryItems 1 entries).length = _
    simp [entryItems_length]
    omega
  · intro i e he
    obtain ⟨g1, g2, g3⟩ := entryItems_getElem entries 1 i e he
    have hitems : (export_to_pdf entries).items =
        .cell "Entries Report" :: .spacer 10 :: entryItems 1 entries := rfl
    refine ⟨?_, ?_, ?_⟩
    · rw [hitems, show 3 * i + 2 = (3 * i + 1) + 1 from by omega,
        List.getElem?_cons_succ, List.getElem?_cons_succ]
      rw [show 1 + i = i + 1 from by omega] at g1
      exact g1
    · rw [hitems, show 3 * i + 3 = (3 * i + 1 + 1) + 1 from by omega,
        List.getElem?_cons_succ, List.getElem?_cons_succ]
      exact g2
    · rw [hitems, show 3 * i + 4 = (3 * i + 2 + 1) + 1 from by omega,
        List.getElem?_cons_succ, List.getElem?_cons_succ]
      exact g3

/-- Witness for C8: exporting the one-entry demonstration list places its
two lines and spacer at positions 2, 3 and 4. -/
theorem export_to_pdf_spec_witness :
    (export_to_pdf [demoEntry]).items[3 * 0 + 2]? =
        some (.cell (entryLine1 (0 + 1) demoEntry)) ∧
      (export_to_pdf [demoEntry]).items[3 * 0 + 3]? =
        some (.cell (entryLine2 demoEntry)) ∧
      (export_to_pdf [demoEntry]).items[3 * 0 + 4]? = some (.spacer 5) :=
  (export_to_pdf_spec [demoEntry]).2.2.2.2 0 demoEntry (by decide)

end SwachhApp
